import Mathlib

set_option linter.unusedVariables false

/-!
Verification of the rifStorage repository: the `CharityAuditStorage` Solidity
contract (storage-agreement ledger) and the `RIFStorageClient` TypeScript
client (provider directory, cost estimator, IPFS upload shim).

The contract state is modelled as explicit state passing; `bytes32` and
`address` values are modelled as `Nat`; `uint256` arithmetic that cannot
overflow in the modelled fragment is modelled as `Nat`; JavaScript numbers
used for prices are modelled as `Rat`; fallible operations return `Except`.
`keccak256` is modelled as an arbitrary deterministic function parameter.
-/

/-- UTF-8 encoding of a single character (the raw byte representation a
Solidity `string` holds for that character). -/
def utf8EncodeChar (c : Char) : List Nat :=
  let n := c.toNat
  if n < 128 then [n]
  else if n < 2048 then [192 + n / 64, 128 + n % 64]
  else if n < 65536 then [224 + n / 4096, 128 + (n / 64) % 64, 128 + n % 64]
  else [240 + n / 262144, 128 + (n / 4096) % 64, 128 + (n / 64) % 64, 128 + n % 64]

/-- The raw byte representation of a string: the concatenation of the UTF-8
encodings of its characters.  This is what `bytes(source)` denotes in the
Solidity source. -/
def utf8Bytes (s : String) : List Nat :=
  (s.data.map utf8EncodeChar).flatten

/-- Big-endian value of a byte sequence, as `mload` reads a memory word. -/
def beVal (bs : List Nat) : Nat :=
  bs.foldl (fun a b => a * 256 + b) 0

/-- Read `n` bytes of EVM memory starting at the first byte of `bs`.  Freshly
allocated Solidity memory beyond the bytes actually written is
zero-initialized, so bytes past the end of `bs` read as `0`. -/
def readMem : List Nat → Nat → List Nat
  | _, 0 => []
  | [], n + 1 => 0 :: readMem [] n
  | b :: bs, n + 1 => b :: readMem bs n

/-- Model of the contract's `stringToBytes32` helper: an empty string returns
the zero word; otherwise `assembly { result := mload(add(source, 32)) }`
reads the 32 memory bytes at the string's data pointer (the string's bytes
followed by the zero bytes of fresh memory) as one big-endian word. -/
def stringToBytes32 (source : String) : Nat :=
  let tempEmptyStringTest := utf8Bytes source
  if tempEmptyStringTest.length = 0 then 0
  else beVal (readMem tempEmptyStringTest 32)

/-- Content key as the specification describes it: the first 32 bytes of the
identifier's raw byte representation, right-padded with zero bytes to 32
before truncation, read big-endian. -/
def contentKeySpecOf (s : String) : Nat :=
  let bs := utf8Bytes s
  beVal ((bs ++ List.replicate (32 - bs.length) 0).take 32)

theorem readMem_eq_pad_take (n : Nat) :
    ∀ bs : List Nat, readMem bs n = (bs ++ List.replicate (n - bs.length) 0).take n := by
  induction n with
  | zero => intro bs; simp [readMem]
  | succ n ih =>
    intro bs
    cases bs with
    | nil =>
      simp only [readMem, ih, List.nil_append, List.length_nil, Nat.sub_zero]
      simp [List.take_replicate, List.replicate_succ]
    | cons b bs =>
      simp only [readMem, ih, List.cons_append, List.length_cons,
        Nat.succ_sub_succ, List.take_succ_cons]

/-- The persisted unit of the `CharityAuditStorage` contract (`StorageRecord`
struct): `bytes32` and `address` values are `Nat`. -/
structure StorageRecord where
  ipfsHash : Nat
  agreementId : Nat
  uploader : Nat
  timestamp : Nat
  category : String
  fileSize : Nat
  isPinned : Bool
deriving DecidableEq

/-- The default value a Solidity mapping yields for a key never written:
every field zeroed. -/
def emptyRecord : StorageRecord :=
  { ipfsHash := 0, agreementId := 0, uploader := 0, timestamp := 0,
    category := "", fileSize := 0, isPinned := false }

/-- The contract's storage: the `records` mapping and the `recordIds` array. -/
structure LedgerState where
  records : Nat → StorageRecord
  recordIds : List Nat

/-- Contract storage right after deployment: the mapping is all-default and
the index array is empty. -/
def initState : LedgerState :=
  { records := fun _ => emptyRecord, recordIds := [] }

/-- Reverts of the modelled contract: the external `newAgreement` call
reverting (which bubbles up), and the `require` in `getRecord`. -/
inductive LedgerError
  | agreementRejected
  | notFound
deriving DecidableEq

/-- Model of `createStorageRecord`.  `keccak` stands for
`keccak256(abi.encodePacked(ipfsHash, msg.sender, block.timestamp))` as an
arbitrary deterministic function of those three words; `sender`, `value` and
`timestamp` are `msg.sender`, `msg.value` and `block.timestamp`;
`brokerOutcome` is the outcome of the external
`IRIFStorage(RIF_STORAGE_CONTRACT).newAgreement{value: msg.value}(...)` call
(`none` when it reverts, in which case the revert bubbles up and the whole
transaction leaves storage unchanged).  `provider`, `billingPeriods`,
`billingPrices` and `value` are only forwarded to that external call. -/
def createStorageRecord (keccak : Nat → Nat → Nat → Nat) (s : LedgerState)
    (ipfsCid : String) (provider : Nat) (fileSize : Nat)
    (billingPeriods billingPrices : List Nat) (category : String)
    (sender : Nat) (value : Nat) (timestamp : Nat)
    (brokerOutcome : Option Nat) : LedgerState × Except LedgerError Nat :=
  let ipfsHash := stringToBytes32 ipfsCid
  match brokerOutcome with
  | none => (s, .error .agreementRejected)
  | some agreementId =>
    let recordId := keccak ipfsHash sender timestamp
    ({ records := fun id =>
         if id = recordId then
           { ipfsHash := ipfsHash, agreementId := agreementId, uploader := sender,
             timestamp := timestamp, category := category, fileSize := fileSize,
             isPinned := true }
         else s.records id,
       recordIds := s.recordIds ++ [recordId] },
     .ok recordId)

/-- Model of `getRecord`: `require(records[recordId].uploader != address(0))`
then return `records[recordId]`. -/
def getRecord (s : LedgerState) (recordId : Nat) : Except LedgerError StorageRecord :=
  if (s.records recordId).uploader ≠ 0 then .ok (s.records recordId)
  else .error .notFound

/-- Model of `getAllRecordIds`. -/
def getAllRecordIds (s : LedgerState) : List Nat :=
  s.recordIds

/-- The accessor Solidity auto-generates because `records` is `public`: a
plain mapping read that never reverts, yielding the all-default struct for a
key never written. -/
def recordsAccessor (s : LedgerState) (recordId : Nat) : StorageRecord :=
  s.records recordId

/-- One invocation of `createStorageRecord`: its arguments, transaction
context, and the outcome of the external broker call. -/
structure CreateCall where
  ipfsCid : String
  provider : Nat
  fileSize : Nat
  billingPeriods : List Nat
  billingPrices : List Nat
  category : String
  sender : Nat
  value : Nat
  timestamp : Nat
  brokerOutcome : Option Nat
deriving DecidableEq

/-- Run one `createStorageRecord` invocation. -/
def execCall (keccak : Nat → Nat → Nat → Nat) (s : LedgerState)
    (c : CreateCall) : LedgerState × Except LedgerError Nat :=
  createStorageRecord keccak s c.ipfsCid c.provider c.fileSize c.billingPeriods
    c.billingPrices c.category c.sender c.value c.timestamp c.brokerOutcome

/-- Run a sequence of `createStorageRecord` invocations. -/
def execTrace (keccak : Nat → Nat → Nat → Nat) (s : LedgerState) :
    List CreateCall → LedgerState
  | [] => s
  | c :: cs => execTrace keccak (execCall keccak s c).1 cs

/-- The record ids returned by the successful invocations of a call
sequence, in call order. -/
def producedIds (keccak : Nat → Nat → Nat → Nat) (s : LedgerState) :
    List CreateCall → List Nat
  | [] => []
  | c :: cs =>
    (match (execCall keccak s c).2 with
     | .ok recordId => [recordId]
     | .error _ => []) ++ producedIds keccak (execCall keccak s c).1 cs

theorem execTrace_recordIds (keccak : Nat → Nat → Nat → Nat) :
    ∀ (cs : List CreateCall) (s : LedgerState),
      (execTrace keccak s cs).recordIds = s.recordIds ++ producedIds keccak s cs := by
  intro cs
  induction cs with
  | nil => intro s; simp [execTrace, producedIds]
  | cons c cs ih =>
    intro s
    simp only [execTrace, producedIds, ih]
    cases h : c.brokerOutcome <;>
      simp [execCall, createStorageRecord, h]

theorem execTrace_unstored_default (keccak : Nat → Nat → Nat → Nat) :
    ∀ (cs : List CreateCall) (s : LedgerState),
      (∀ id, id ∉ s.recordIds → s.records id = emptyRecord) →
      ∀ id, id ∉ (execTrace keccak s cs).recordIds →
        (execTrace keccak s cs).records id = emptyRecord := by
  intro cs
  induction cs with
  | nil => intro s hs; exact hs
  | cons c cs ih =>
    intro s hs
    refine ih _ ?_
    intro id hid
    by_cases hb : c.brokerOutcome = none
    · simpa [execCall, createStorageRecord, hb] using hs id (by
        simpa [execCall, createStorageRecord, hb] using hid)
    · obtain ⟨aid, haid⟩ := Option.ne_none_iff_exists'.mp hb
      simp only [execCall, createStorageRecord, haid] at hid ⊢
      simp only [List.mem_append, List.mem_singleton, not_or] at hid
      simp only [if_neg hid.2]
      exact hs id hid.1

theorem execTrace_uploader_iff_mem (keccak : Nat → Nat → Nat → Nat) :
    ∀ (cs : List CreateCall), (∀ c ∈ cs, c.sender ≠ 0) →
      ∀ (s : LedgerState),
        (∀ id, ((s.records id).uploader ≠ 0 ↔ id ∈ s.recordIds)) →
        ∀ id, (((execTrace keccak s cs).records id).uploader ≠ 0 ↔
          id ∈ (execTrace keccak s cs).recordIds) := by
  intro cs
  induction cs with
  | nil => intro _ s hs; exact hs
  | cons c cs ih =>
    intro hsend s hs
    refine ih (fun c hc => hsend c (List.mem_cons_of_mem _ hc)) _ ?_
    intro id
    by_cases hb : c.brokerOutcome = none
    · simpa [execCall, createStorageRecord, hb] using hs id
    · obtain ⟨aid, haid⟩ := Option.ne_none_iff_exists'.mp hb
      simp only [execCall, createStorageRecord, haid]
      by_cases hid : id = keccak (stringToBytes32 c.ipfsCid) c.sender c.timestamp
      · simp [hid, hsend c (List.mem_cons_self c cs)]
      · simp only [if_neg hid, List.mem_append, List.mem_singleton, hid, or_false]
        exact hs id

/-- One billing plan of a marketplace offer (`plans` array entries of the
client's `StorageOffer`): `period` in seconds, `amount` in wei. -/
structure BillingPlan where
  id : String
  period : Nat
  amount : Nat
deriving DecidableEq

/-- A marketplace storage offer as the client receives it.  JavaScript
number prices are modelled as rationals. -/
structure StorageOffer where
  provider : String
  peerId : String
  avgBillingPrice : Rat
  availableCapacity : Nat
  plans : List BillingPlan
deriving DecidableEq

/-- First entry of the client's `MOCK_OFFERS` constant. -/
def mockOffer1 : StorageOffer :=
  { provider := "0x1234567890123456789012345678901234567890",
    peerId := "QmXProviderPeerId123456789",
    avgBillingPrice := 1 / 100000,
    availableCapacity := 1024 * 1024 * 1024 * 100,
    plans := [{ id := "1", period := 86400 * 30, amount := 10000000000000 }] }

/-- Second entry of the client's `MOCK_OFFERS` constant. -/
def mockOffer2 : StorageOffer :=
  { provider := "0x0987654321098765432109876543210987654321",
    peerId := "QmYProviderPeerId987654321",
    avgBillingPrice := 2 / 100000,
    availableCapacity := 1024 * 1024 * 1024 * 50,
    plans := [{ id := "1", period := 86400 * 30, amount := 20000000000000 }] }

/-- The client's built-in fallback offer set (`MOCK_OFFERS`). -/
def MOCK_OFFERS : List StorageOffer := [mockOffer1, mockOffer2]

/-- The comparator `(a, b) => a.avgBillingPrice - b.avgBillingPrice` passed to
`Array.prototype.sort`, as the Boolean relation a stable sort uses: `a` may
come before `b` when the comparator is not positive. -/
def offerLE (a b : StorageOffer) : Bool :=
  decide (a.avgBillingPrice ≤ b.avgBillingPrice)

/-- The filter `getBestOffer` applies: positive available capacity and at
least one billing plan. -/
def activeOffersOf (offers : List StorageOffer) : List StorageOffer :=
  offers.filter fun o => decide (0 < o.availableCapacity) && decide (0 < o.plans.length)

/-- A placeholder offer for the unreachable head of an empty list. -/
def emptyOffer : StorageOffer :=
  { provider := "", peerId := "", avgBillingPrice := 0, availableCapacity := 0,
    plans := [] }

/-- Model of the client's `getBestOffer` over an already-fetched offer list:
filter to active offers; if none remain, return `MOCK_OFFERS[0]`; otherwise
sort by average price (ECMAScript `sort` is stable, modelled by `mergeSort`)
and return the first element. -/
def getBestOffer (offers : List StorageOffer) : StorageOffer :=
  let activeOffers := activeOffersOf offers
  if activeOffers.length = 0 then MOCK_OFFERS.headD emptyOffer
  else (activeOffers.mergeSort offerLE).headD emptyOffer

/-- Failure of the client's cost computation: reading `plan.amount` off the
`undefined` value `offer.plans[0]` when the offer has no billing plan. -/
inductive ClientError
  | invalidOffer
deriving DecidableEq

/-- The quote `calculateStorageCost` returns. -/
structure StorageCost where
  offerId : String
  planId : String
  monthlyCostRBTC : Rat
  totalCostRBTC : Rat
  period : Nat
  providerPeerId : String
deriving DecidableEq

/-- Model of the client's `calculateStorageCost`: recompute the best offer,
take its first billing plan (`offer.plans[0]`; when the plans array is empty
the subsequent property read throws, modelled as the error), and price
`amount / 10^18` wei-to-RBTC per GB-month times the file size in GB, times
the duration in months. -/
def calculateStorageCost (offers : List StorageOffer) (fileSizeBytes : Rat)
    (durationMonths : Rat) : Except ClientError StorageCost :=
  let offer := getBestOffer offers
  let fileSizeGB := fileSizeBytes / 1024 ^ 3
  match offer.plans.head? with
  | none => .error .invalidOffer
  | some plan =>
    let monthlyCost := ((plan.amount : Rat) / 10 ^ 18) * fileSizeGB
    let totalCost := monthlyCost * durationMonths
    .ok { offerId := offer.provider, planId := plan.id,
          monthlyCostRBTC := monthlyCost, totalCostRBTC := totalCost,
          period := plan.period, providerPeerId := offer.peerId }

/-- The constant CID the client's `uploadToIPFS` returns on any failure. -/
def MOCK_CID : String := "QmXyZ1234567890abcdef1234567890abcdef123456"

/-- A file handed to the uploader. -/
structure UploadFile where
  name : String
  size : Nat
deriving DecidableEq

/-- Model of the client's `uploadToIPFS`: `ipfsAdd` is the configured IPFS
client's `add` operation (`none` when constructing the client failed, and
yielding `none` when `add` itself throws).  Every failure path is caught and
the fixed mock CID returned instead of propagating an error. -/
def uploadToIPFS (ipfsAdd : Option (UploadFile → Option String))
    (file : UploadFile) : String :=
  match ipfsAdd with
  | none => MOCK_CID
  | some addOp =>
    match addOp file with
    | some cid => cid
    | none => MOCK_CID

/-- Model of the uploader component's `calculateCost`: returns early when no
file is selected, and otherwise asks the client for a quote from the file
size and a one-month duration — the selected offer is in scope but never
passed. -/
def componentCalculateCost (offers : List StorageOffer) (file : Option UploadFile)
    (selectedOffer : Option StorageOffer) : Option (Except ClientError StorageCost) :=
  match file with
  | none => none
  | some f => some (calculateStorageCost offers (f.size : Rat) 1)

theorem find?_agree {α : Type} (p q : α → Bool) :
    ∀ l : List α, (∀ x ∈ l, p x = q x) → l.find? p = l.find? q := by
  intro l
  induction l with
  | nil => intro _; rfl
  | cons a l ih =>
    intro h
    have ha := h a (List.mem_cons_self a l)
    cases hq : q a with
    | true =>
      rw [List.find?_cons_of_pos l (ha.trans hq), List.find?_cons_of_pos l hq]
    | false =>
      rw [List.find?_cons_of_neg l (by simp [ha, hq]),
        List.find?_cons_of_neg l (by simp [hq]),
        ih fun x hx => h x (List.mem_cons_of_mem a hx)]

theorem bool_le_refl {α : Type} (le : α → α → Bool)
    (total : ∀ a b, le a b || le b a) (a : α) : le a a := by
  simpa using total a a

/-- The head of a stable merge sort of a nonempty list under a total
transitive comparison is the first element that compares at most every
element: the minimum with ties broken by first-seen order. -/
theorem head_mergeSort_first_min {α : Type} (le : α → α → Bool)
    (trans : ∀ a b c, le a b → le b c → le a c)
    (total : ∀ a b, le a b || le b a) :
    ∀ l : List α, l ≠ [] →
      l.find? (fun x => l.all (le x)) = (l.mergeSort le).head? := by
  intro l
  induction l with
  | nil => intro h; exact absurd rfl h
  | cons a l' ih =>
    intro _
    obtain ⟨l₁, l₂, hsort, hsort', hlt⟩ := List.mergeSort_cons trans total a l'
    have hsorted := List.sorted_mergeSort trans total (a :: l')
    rw [hsort] at hsorted
    cases l₁ with
    | nil =>
      simp only [List.nil_append] at hsort hsort'
      have hmin : ∀ x ∈ a :: l', le a x := by
        intro x hx
        have hx' : x ∈ a :: l₂ := by
          rw [← hsort]; exact List.mem_mergeSort.mpr hx
        rcases List.mem_cons.mp hx' with h | h
        · subst h; exact bool_le_refl le total x
        · exact (List.pairwise_cons.mp hsorted).1 x h
      have hpa : ((a :: l').all (le a)) = true := List.all_eq_true.mpr hmin
      rw [hsort, List.find?_cons]
      simp [hpa]
    | cons c cs =>
      simp only [List.cons_append] at hsort
      have hac : le a c = false := by
        have := hlt c (List.mem_cons_self c cs)
        simpa using this
      have hca : le c a = true := by
        have := total a c
        simpa [hac] using this
      have hminc : ∀ x ∈ a :: l', le c x := by
        intro x hx
        have hx' : x ∈ c :: (cs ++ a :: l₂) := by
          rw [← hsort]; exact List.mem_mergeSort.mpr hx
        rcases List.mem_cons.mp hx' with h | h
        · subst h; exact bool_le_refl le total x
        · exact (List.pairwise_cons.mp hsorted).1 x h
      have hl' : l' ≠ [] := by
        intro h
        rw [h] at hsort'
        simp at hsort'
      have hcl' : c ∈ l' := by
        have : c ∈ l'.mergeSort le := by
          rw [hsort']; exact List.mem_append_left _ (List.mem_cons_self c cs)
        exact List.mem_mergeSort.mp this
      have hpa : ((a :: l').all (le a)) = false := by
        rw [List.all_eq_false]
        exact ⟨c, List.mem_cons_of_mem a hcl', by simp [hac]⟩
      rw [hsort, List.find?_cons]
      have hagree : ∀ x ∈ l', ((a :: l').all (le x)) = (l'.all (le x)) := by
        intro x hx
        cases hq : l'.all (le x) with
        | true =>
          have hxc : le x c = true := List.all_eq_true.mp hq c hcl'
          have hxa : le x a = true := trans x c a hxc hca
          simp [List.all_cons, hxa, hq]
        | false =>
          simp [List.all_cons, hq]
      simp only [hpa, List.head?_cons]
      rw [find?_agree _ _ l' hagree, ih hl', hsort']
      rfl

theorem offerLE_trans : ∀ a b c, offerLE a b → offerLE b c → offerLE a c := by
  intro a b c hab hbc
  simp only [offerLE, decide_eq_true_eq] at *
  exact le_trans hab hbc

theorem offerLE_total : ∀ a b, offerLE a b || offerLE b a := by
  intro a b
  rcases le_total a.avgBillingPrice b.avgBillingPrice with h | h <;>
    simp [offerLE, h]

/-- A concrete stand-in for `keccak256` in counterexample traces: any
deterministic function exhibits the duplicate-input collision. -/
def keccakDemo : Nat → Nat → Nat → Nat :=
  fun h sender ts => (h + sender) * 1000003 + ts

/-- A concrete successful `createStorageRecord` invocation. -/
def demoCall : CreateCall :=
  { ipfsCid := "Qm", provider := 3, fileSize := 10, billingPeriods := [2592000],
    billingPrices := [5], category := "donation_receipt", sender := 1, value := 5,
    timestamp := 100, brokerOutcome := some 7 }

/-- The record id `demoCall` derives. -/
def demoId : Nat := keccakDemo (stringToBytes32 "Qm") 1 100

/-- The ledger state after running `demoCall` twice: two calls with the same
content key, sender and block timestamp, as two transactions in one block. -/
def demoState : LedgerState := execTrace keccakDemo initState [demoCall, demoCall]

/-- Claim C1: every `createStorageRecord` invocation either succeeds — with
the record stored under the derived id, the id appended to the index, and the
id returned — or the broker call fails and the transaction reverts with the
records mapping and the recordIds sequence exactly as before the call. -/
theorem createStorageRecord_atomic (keccak : Nat → Nat → Nat → Nat)
    (s : LedgerState) (c : CreateCall) :
    (c.brokerOutcome = none ∧ (execCall keccak s c).1 = s ∧
      (execCall keccak s c).2 = .error .agreementRejected) ∨
    (∃ agreementId recordId, c.brokerOutcome = some agreementId ∧
      recordId = keccak (stringToBytes32 c.ipfsCid) c.sender c.timestamp ∧
      (execCall keccak s c).2 = .ok recordId ∧
      (execCall keccak s c).1.records recordId =
        { ipfsHash := stringToBytes32 c.ipfsCid, agreementId := agreementId,
          uploader := c.sender, timestamp := c.timestamp, category := c.category,
          fileSize := c.fileSize, isPinned := true } ∧
      (execCall keccak s c).1.recordIds = s.recordIds ++ [recordId] ∧
      ∀ id, id ≠ recordId → (execCall keccak s c).1.records id = s.records id) := by
  cases hb : c.brokerOutcome with
  | none =>
    left
    refine ⟨rfl, ?_, ?_⟩ <;> simp [execCall, createStorageRecord, hb]
  | some agreementId =>
    right
    refine ⟨agreementId, keccak (stringToBytes32 c.ipfsCid) c.sender c.timestamp,
      rfl, rfl, ?_, ?_, ?_, ?_⟩
    · simp [execCall, createStorageRecord, hb]
    · simp [execCall, createStorageRecord, hb]
    · simp [execCall, createStorageRecord, hb]
    · intro id hid
      simp [execCall, createStorageRecord, hb, if_neg hid]

/-- Claim C2, counterexample: after two `createStorageRecord` calls with the
same content key, sender and timestamp, the derived id has a stored record
(non-zero uploader) yet appears twice — not exactly once — in `recordIds`. -/
theorem ledger_index_unique_cex :
    (demoState.records demoId).uploader ≠ 0 ∧
      demoState.recordIds.count demoId = 2 := by
  decide

/-- Claim C2 (amended): in every state reachable by `createStorageRecord`
calls whose senders are non-zero, a record exists at an id (non-zero
uploader) if and only if the id appears at least once in `recordIds`; the id
may appear more than once when calls repeat the same content key, sender and
timestamp. -/
theorem ledger_exists_iff_mem (keccak : Nat → Nat → Nat → Nat)
    (cs : List CreateCall) (hsend : ∀ c ∈ cs, c.sender ≠ 0) (id : Nat) :
    (((execTrace keccak initState cs).records id).uploader ≠ 0 ↔
      id ∈ (execTrace keccak initState cs).recordIds) :=
  execTrace_uploader_iff_mem keccak cs hsend initState
    (by simp [initState, emptyRecord]) id

theorem ledger_exists_iff_mem_w :
    ((execTrace keccakDemo initState [demoCall]).records demoId).uploader ≠ 0 ↔
      demoId ∈ (execTrace keccakDemo initState [demoCall]).recordIds :=
  ledger_exists_iff_mem keccakDemo [demoCall] (by decide) demoId

theorem utf8EncodeChar_ne_nil (c : Char) : utf8EncodeChar c ≠ [] := by
  simp only [utf8EncodeChar]
  split
  · simp
  · split
    · simp
    · split <;> simp

theorem utf8Bytes_ne_nil (s : String) (h : s ≠ "") : utf8Bytes s ≠ [] := by
  obtain ⟨data⟩ := s
  cases data with
  | nil => exact absurd (by decide) h
  | cons c cs =>
    simp only [utf8Bytes, List.map_cons, List.flatten_cons]
    intro heq
    exact utf8EncodeChar_ne_nil c (List.append_eq_nil.mp heq).1

/-- Claim C3: on any non-empty identifier, `stringToBytes32` is the
big-endian read of the first 32 bytes of the identifier's raw byte
representation, right-padded with zero bytes to 32 before truncation; bytes
past the 32nd are discarded. -/
theorem stringToBytes32_pad_truncate (s : String) (h : s ≠ "") :
    stringToBytes32 s = contentKeySpecOf s := by
  have hbs : (utf8Bytes s).length ≠ 0 := by
    simpa using fun hh => utf8Bytes_ne_nil s h (List.length_eq_zero.mp hh)
  simp only [stringToBytes32, contentKeySpecOf, if_neg hbs,
    readMem_eq_pad_take]

theorem stringToBytes32_pad_truncate_w :
    ("Qm" : String) ≠ "" ∧ stringToBytes32 "Qm" = contentKeySpecOf "Qm" :=
  ⟨by decide, stringToBytes32_pad_truncate "Qm" (by decide)⟩

/-- Claim C4: `stringToBytes32` maps the empty string to the all-zero 32-byte
key, as an ordinary return value of the total conversion function. -/
theorem stringToBytes32_empty : stringToBytes32 "" = beVal (List.replicate 32 0) := by
  decide

/-- Claim C5: over any offer list whose active filtrate (positive capacity,
at least one billing plan) is non-empty, `getBestOffer` returns the first
offer attaining the minimum average billing price — the minimum with ties
broken by first-seen order. -/
theorem getBestOffer_first_min (offers : List StorageOffer)
    (h : activeOffersOf offers ≠ []) :
    (activeOffersOf offers).find?
        (fun o => (activeOffersOf offers).all (offerLE o)) =
      some (getBestOffer offers) := by
  have hm := head_mergeSort_first_min offerLE offerLE_trans offerLE_total
      (activeOffersOf offers) h
  have hlen : ¬((activeOffersOf offers).length = 0) := by
    simpa using fun hh => h (List.length_eq_zero.mp hh)
  rw [hm]
  simp only [getBestOffer, if_neg hlen]
  cases hms : (activeOffersOf offers).mergeSort offerLE with
  | nil =>
    have := congrArg List.length hms
    simp only [List.length_mergeSort, List.length_nil] at this
    exact absurd this hlen
  | cons x xs => simp

theorem getBestOffer_first_min_w :
    (activeOffersOf MOCK_OFFERS).find?
        (fun o => (activeOffersOf MOCK_OFFERS).all (offerLE o)) =
      some (getBestOffer MOCK_OFFERS) ∧
    getBestOffer MOCK_OFFERS = mockOffer1 := by
  have h1 := getBestOffer_first_min MOCK_OFFERS (by decide)
  have h2 : (activeOffersOf MOCK_OFFERS).find?
      (fun o => (activeOffersOf MOCK_OFFERS).all (offerLE o)) = some mockOffer1 := by
    have h : activeOffersOf MOCK_OFFERS = [mockOffer1, mockOffer2] := by
      simp [activeOffersOf, MOCK_OFFERS, mockOffer1, mockOffer2]
    rw [h]
    simp [offerLE, mockOffer1, mockOffer2]
    norm_num
  exact ⟨h1, by rw [h2] at h1; exact (Option.some.inj h1).symm⟩

theorem getBestOffer_has_plan (offers : List StorageOffer) :
    (getBestOffer offers).plans ≠ [] := by
  simp only [getBestOffer]
  by_cases h : (activeOffersOf offers).length = 0
  · rw [if_pos h]; decide
  · rw [if_neg h]
    cases hms : (activeOffersOf offers).mergeSort offerLE with
    | nil =>
      have := congrArg List.length hms
      simp only [List.length_mergeSort, List.length_nil] at this
      exact absurd this h
    | cons x xs =>
      have hx : x ∈ activeOffersOf offers := by
        have : x ∈ (activeOffersOf offers).mergeSort offerLE := by
          rw [hms]; exact List.mem_cons_self x xs
        exact List.mem_mergeSort.mp this
      have := (List.mem_filter.mp hx).2
      simp only [Bool.and_eq_true, decide_eq_true_eq] at this
      simpa using List.length_pos.mp this.2

/-- Claim C6: the cost computation fails (reading a plan off an offer with an
empty `plans` array) exactly when the offer `getBestOffer` returns has zero
billing plans — which never happens, so a quote built from that offer's first
billing plan (index 0) is always returned. -/
theorem calculateStorageCost_first_plan (offers : List StorageOffer)
    (fileSizeBytes durationMonths : Rat) :
    ((calculateStorageCost offers fileSizeBytes durationMonths =
        .error .invalidOffer) ↔ (getBestOffer offers).plans = []) ∧
    ∃ plan rest, (getBestOffer offers).plans = plan :: rest ∧
      calculateStorageCost offers fileSizeBytes durationMonths =
        .ok { offerId := (getBestOffer offers).provider, planId := plan.id,
              monthlyCostRBTC :=
                (plan.amount : Rat) / 10 ^ 18 * (fileSizeBytes / 1024 ^ 3),
              totalCostRBTC :=
                (plan.amount : Rat) / 10 ^ 18 * (fileSizeBytes / 1024 ^ 3) *
                  durationMonths,
              period := plan.period,
              providerPeerId := (getBestOffer offers).peerId } := by
  cases hp : (getBestOffer offers).plans with
  | nil => exact absurd hp (getBestOffer_has_plan offers)
  | cons plan rest =>
    constructor
    · simp [calculateStorageCost, hp]
    · exact ⟨plan, rest, rfl, by simp [calculateStorageCost, hp]⟩

/-- Claim C7: `getRecord` fails with the not-found revert exactly when the
stored record at the id has the zero-uploader sentinel; after any sequence of
calls with non-zero senders, every id not produced by a successful
`createStorageRecord` call fails with not-found, and every produced id
returns the stored record. -/
theorem getRecord_notFound_iff (keccak : Nat → Nat → Nat → Nat)
    (cs : List CreateCall) (hsend : ∀ c ∈ cs, c.sender ≠ 0) (id : Nat) :
    (getRecord (execTrace keccak initState cs) id = .error .notFound ↔
      ((execTrace keccak initState cs).records id).uploader = 0) ∧
    (id ∉ producedIds keccak initState cs →
      getRecord (execTrace keccak initState cs) id = .error .notFound) ∧
    (id ∈ producedIds keccak initState cs →
      getRecord (execTrace keccak initState cs) id =
        .ok ((execTrace keccak initState cs).records id)) := by
  have hids : (execTrace keccak initState cs).recordIds =
      producedIds keccak initState cs := by
    simpa [initState] using execTrace_recordIds keccak cs initState
  have hmem := execTrace_uploader_iff_mem keccak cs hsend initState
    (by simp [initState, emptyRecord]) id
  refine ⟨?_, ?_, ?_⟩
  · rcases Classical.em (((execTrace keccak initState cs).records id).uploader = 0)
      with h | h <;> simp [getRecord, h]
  · intro hpid
    have h0 : ((execTrace keccak initState cs).records id).uploader = 0 := by
      by_contra hc
      exact hpid (hids ▸ hmem.mp hc)
    simp [getRecord, h0]
  · intro hpid
    have h0 : ((execTrace keccak initState cs).records id).uploader ≠ 0 :=
      hmem.mpr (hids ▸ hpid)
    simp [getRecord, h0]

theorem getRecord_notFound_iff_w :
    (getRecord (execTrace keccakDemo initState [demoCall]) demoId =
        .error .notFound ↔
      ((execTrace keccakDemo initState [demoCall]).records demoId).uploader = 0) ∧
    (demoId ∉ producedIds keccakDemo initState [demoCall] →
      getRecord (execTrace keccakDemo initState [demoCall]) demoId =
        .error .notFound) ∧
    (demoId ∈ producedIds keccakDemo initState [demoCall] →
      getRecord (execTrace keccakDemo initState [demoCall]) demoId =
        .ok ((execTrace keccakDemo initState [demoCall]).records demoId)) :=
  getRecord_notFound_iff keccakDemo [demoCall] (by decide) demoId

/-- Claim C8: whenever the IPFS add operation fails or no IPFS client is
configured, `uploadToIPFS` propagates no error and returns the fixed constant
CID, so two distinct files can be assigned the identical content identifier. -/
theorem uploadToIPFS_mock_cid (addOp : UploadFile → Option String)
    (f g : UploadFile) :
    uploadToIPFS none f = MOCK_CID ∧
    (addOp f = none → uploadToIPFS (some addOp) f = MOCK_CID) ∧
    (f ≠ g ∧ addOp f = none ∧ addOp g = none →
      uploadToIPFS (some addOp) f = uploadToIPFS (some addOp) g) := by
  refine ⟨rfl, ?_, ?_⟩
  · intro h; simp [uploadToIPFS, h]
  · rintro ⟨-, hf, hg⟩; simp [uploadToIPFS, hf, hg]

/-- Claim C9: because `records` is public, its auto-generated accessor
returns the all-zero record (zero uploader, zero hashes, `isPinned` false)
for every id never stored, without failing — while `getRecord` at the same id
reverts with not-found. -/
theorem recordsAccessor_zero_for_unstored (keccak : Nat → Nat → Nat → Nat)
    (cs : List CreateCall) (id : Nat)
    (h : id ∉ (execTrace keccak initState cs).recordIds) :
    recordsAccessor (execTrace keccak initState cs) id = emptyRecord ∧
    getRecord (execTrace keccak initState cs) id = .error .notFound := by
  have hz := execTrace_unstored_default keccak cs initState
    (by simp [initState]) id h
  refine ⟨hz, ?_⟩
  simp [getRecord, hz, emptyRecord]

theorem recordsAccessor_zero_for_unstored_w :
    recordsAccessor (execTrace keccakDemo initState [demoCall]) 0 = emptyRecord ∧
    getRecord (execTrace keccakDemo initState [demoCall]) 0 = .error .notFound :=
  recordsAccessor_zero_for_unstored keccakDemo [demoCall] 0 (by decide)

/-- Claim C10: the storage cost quote is independent of the caller-selected
offer — the component's cost computation passes only the file size and
duration, and the client recomputes the best offer internally. -/
theorem componentCalculateCost_ignores_selection (offers : List StorageOffer)
    (file : Option UploadFile) (sel1 sel2 : Option StorageOffer) :
    componentCalculateCost offers file sel1 =
      componentCalculateCost offers file sel2 ∧
    ∀ f : UploadFile, componentCalculateCost offers (some f) sel1 =
      some (calculateStorageCost offers (f.size : Rat) 1) :=
  ⟨rfl, fun _ => rfl⟩
